import Mathlib

/-!
Verification development for the GoProConcat repository (`main.go`).

The program concatenates chaptered GoPro video files.  The pure core embedded
here consists of:

* `parseFileName` — extracts the ordering key `(fileNumber, chapterNumber)`
  from a file name via the regular expression `(GH|GX)(\d{2})(\d{4})\.(?i:mp4)`
  applied to the upper-cased base name of the path (`main.go`, lines 42–55);
* the validation / ordering phase of `mergeFiles` — duplicate detection over
  absolute paths, parse-error propagation, and the `(FileNumber, ChapterNumber)`
  sort (`main.go`, lines 57–100), together with the arguments handed to the
  external tools (lines 102–135);
* `getFileTimes` — the (earliest birth time, latest modification time)
  reduction over the inputs' filesystem metadata (`main.go`, lines 140–163).

Strings are modelled as `List Char`.  Filesystem and path-resolution effects
are modelled as explicit function parameters (`abs` for `filepath.Abs`, `stat`
for `os.Stat` + `times.Get`): the code only ever consults them pointwise.
-/

set_option maxRecDepth 8000

deriving instance DecidableEq for Except

namespace GoProConcat

/-! ### Characters and strings (the fragments of Go's `strings` package used) -/

/-- Go `strings.ToUpper`, restricted to the ASCII range (GoPro file names are
ASCII; `ToUpper` maps each rune independently). -/
def goToUpper (c : Char) : Char :=
  if 97 ≤ c.toNat ∧ c.toNat ≤ 122 then Char.ofNat (c.toNat - 32) else c

/-- Membership in the regexp character class `\d` (ASCII digits in Go's
`regexp` package). -/
def isDigitChar (c : Char) : Bool :=
  decide (48 ≤ c.toNat ∧ c.toNat ≤ 57)

/-- Numeric value of an ASCII digit, as consumed by `strconv.Atoi` digit by
digit. -/
def digitVal (c : Char) : Nat :=
  c.toNat - 48

/-! ### `filepath.Base` (Unix rules; the program is macOS-only) -/

/-- Strip trailing path separators, as the first step of `filepath.Base`. -/
def dropTrailingSeps (p : List Char) : List Char :=
  (p.reverse.dropWhile (fun c => c = '/')).reverse

/-- Everything after the last `/`, the second step of `filepath.Base`. -/
def lastComponent (p : List Char) : List Char :=
  (p.reverse.takeWhile (fun c => ¬ c = '/')).reverse

/-- Go `filepath.Base` on Unix: `""` gives `"."`, a path of separators gives
`"/"`, otherwise the last path element with trailing separators removed. -/
def base (p : List Char) : List Char :=
  if p = [] then ['.']
  else
    let q := dropTrailingSeps p
    let r := lastComponent q
    if r = [] then ['/'] else r

/-! ### The Name Parser (`parseFileName`, `main.go` lines 42–55) -/

/-- Go `FileInfo` struct (`main.go` lines 18–22). -/
structure FileInfo where
  Path : List Char
  FileNumber : Nat
  ChapterNumber : Nat
deriving DecidableEq

/-- The classified errors the embedded functions return.  In the Go source
these are `fmt.Errorf` values; the constructors carry the path interpolated
into the message. -/
inductive GoErr where
  /-- invalid file format: `path` (from `parseFileName`) -/
  | invalidFileFormat (path : List Char)
  /-- duplicate file detected: `absPath` (from `mergeFiles` validation) -/
  | duplicateFile (absPath : List Char)
  /-- failed to stat input file `path` (from `getFileTimes`) -/
  | statFailure (path : List Char)
  /-- failed to get oldest creation time (from `getFileTimes`) -/
  | missingCreationTime
deriving DecidableEq

/-- One attempt of the regexp `(GH|GX)(\d{2})(\d{4})\.(?i:mp4)` at the head of
`l`, returning the values of the two capture groups `(\d{2})` (chapter digits,
`matches[2]`) and `(\d{4})` (file digits, `matches[3]`) on success.  The
pattern has fixed length, so matching at a position is this single check. -/
def matchPatHere (l : List Char) : Option (Nat × Nat) :=
  match l with
  | g :: x :: c1 :: c2 :: f1 :: f2 :: f3 :: f4 :: dot :: m :: n :: q :: _ =>
    if g = 'G' ∧ (x = 'H' ∨ x = 'X') ∧
       isDigitChar c1 = true ∧ isDigitChar c2 = true ∧
       isDigitChar f1 = true ∧ isDigitChar f2 = true ∧
       isDigitChar f3 = true ∧ isDigitChar f4 = true ∧
       dot = '.' ∧ goToUpper m = 'M' ∧ goToUpper n = 'P' ∧ q = '4'
    then some (digitVal c1 * 10 + digitVal c2,
               ((digitVal f1 * 10 + digitVal f2) * 10 + digitVal f3) * 10 + digitVal f4)
    else none
  | _ => none

/-- `regexp.FindStringSubmatch`: the leftmost match of the (unanchored)
pattern, scanning positions left to right. -/
def findPat : List Char → Option (Nat × Nat)
  | [] => none
  | c :: rest =>
    match matchPatHere (c :: rest) with
    | some r => some r
    | none => findPat rest

/-- `strings.ToUpper(filepath.Base(filePath))`, the string the regexp is run
against (`main.go` line 44). -/
def upperBase (p : List Char) : List Char :=
  (base p).map goToUpper

/-- `parseFileName` (`main.go` lines 42–55): run the pattern over the
upper-cased base name; on a match, `matches[2]` becomes `ChapterNumber` and
`matches[3]` becomes `FileNumber`, and `Path` is the original argument. -/
def parseFileName (filePath : List Char) : Except GoErr FileInfo :=
  match findPat (upperBase filePath) with
  | some (chapterNumber, fileNumber) =>
    .ok { Path := filePath, FileNumber := fileNumber, ChapterNumber := chapterNumber }
  | none => .error (.invalidFileFormat filePath)

example : parseFileName "GH011234.mp4".data =
    .ok { Path := "GH011234.mp4".data, FileNumber := 1234, ChapterNumber := 1 } := by
  decide

example : parseFileName "/dir/gx020042.MP4".data =
    .ok { Path := "/dir/gx020042.MP4".data, FileNumber := 42, ChapterNumber := 2 } := by
  decide

example : parseFileName "randomfile.mp4".data =
    .error (.invalidFileFormat "randomfile.mp4".data) := by
  decide

example : parseFileName "xxGH011234.mp4yy".data =
    .ok { Path := "xxGH011234.mp4yy".data, FileNumber := 1234, ChapterNumber := 1 } := by
  decide

/-! ### The sort (`main.go` lines 80–86) -/

/-- The comparator passed to `sort.Slice` (`main.go` lines 81–86). -/
def fileLess (a b : FileInfo) : Bool :=
  if a.FileNumber = b.FileNumber then decide (a.ChapterNumber < b.ChapterNumber)
  else decide (a.FileNumber < b.FileNumber)

/-- Insert `x` into an already sorted list, placing it before the first
element `y` with `fileLess x y` (so after any element whose key equals `x`'s).
This is the net effect of one pass of the insertion sort `sort.Slice` uses;
for slices shorter than 12 elements Go's `sort.Slice` is exactly this
(stable) insertion sort, and for longer slices it degrades to an unstable
pdqsort whose tie order is unspecified — the concrete lists in this file all
stay below that threshold. -/
def insertFile (x : FileInfo) : List FileInfo → List FileInfo
  | [] => [x]
  | y :: ys => if fileLess x y then x :: y :: ys else y :: insertFile x ys

/-- The `sort.Slice(files, ...)` call (`main.go` line 81): each element is
inserted in turn into the sorted prefix. -/
def sortFiles (files : List FileInfo) : List FileInfo :=
  files.foldl (fun s x => insertFile x s) []

/-! ### Validation and planning (`mergeFiles`, `main.go` lines 57–100)

`filepath.Abs` is modelled by the parameter `abs` (it consults the process
working directory; `mergeFiles` only applies it pointwise).  The `fileMap`
set of seen absolute paths is modelled as the list of its keys. -/

/-- The validation loop of `mergeFiles` (`main.go` lines 61–78): resolve each
input to an absolute path, fail on a duplicate **before** parsing the name,
then parse the name and overwrite `Path` with the absolute path. -/
def collectFiles (abs : List Char → List Char) (fileMap : List (List Char))
    (acc : List FileInfo) : List (List Char) → Except GoErr (List FileInfo)
  | [] => .ok acc
  | inputPath :: rest =>
    let absPath := abs inputPath
    if absPath ∈ fileMap then .error (.duplicateFile absPath)
    else
      match parseFileName inputPath with
      | .error e => .error e
      | .ok fileInfo =>
        collectFiles abs (absPath :: fileMap) (acc ++ [{ fileInfo with Path := absPath }]) rest

/-- The MergePlan: the validated `FileInfo` list sorted by
`(FileNumber, ChapterNumber)` (`main.go` lines 61–86). -/
def buildPlan (abs : List Char → List Char) (inputPaths : List (List Char)) :
    Except GoErr (List FileInfo) :=
  match collectFiles abs [] [] inputPaths with
  | .error e => .error e
  | .ok files => .ok (sortFiles files)

/-! ### Go `time.Time` values and RFC3339 formatting

A `time.Time` carries an instant and a location; `Format` renders the wall
clock of the instant **in that location**.  `GoTime` keeps the instant as
Unix seconds (`sec`) together with the location's zone offset in seconds
east of UTC (`offset`); sub-second digits are not printed by the
`time.RFC3339` layout and are dropped from the model. -/

structure GoTime where
  sec : Int
  offset : Int
deriving DecidableEq

/-- Two right-aligned decimal digits (`n < 100` at every use site). -/
def pad2 (n : Nat) : List Char :=
  [Char.ofNat (48 + n / 10 % 10), Char.ofNat (48 + n % 10)]

/-- Four right-aligned decimal digits (years in this file are 1970–9999). -/
def pad4 (n : Nat) : List Char :=
  [Char.ofNat (48 + n / 1000 % 10), Char.ofNat (48 + n / 100 % 10),
   Char.ofNat (48 + n / 10 % 10), Char.ofNat (48 + n % 10)]

/-- Proleptic-Gregorian date of a day count relative to 1970-01-01 (the
standard civil-from-days computation; extensionally the date Go's
`time.Time.Date` reports). -/
def civilFromDays (z0 : Int) : Int × Nat × Nat :=
  let z := z0 + 719468
  let era := z.fdiv 146097
  let doe := (z - era * 146097).toNat
  let yoe := (doe - doe / 1460 + doe / 36524 - doe / 146096) / 365
  let doy := doe - (365 * yoe + yoe / 4 - yoe / 100)
  let mp := (5 * doy + 2) / 153
  let d := doy - (153 * mp + 2) / 5 + 1
  let m := if mp < 10 then mp + 3 else mp - 9
  (era * 400 + (yoe : Int) + (if m ≤ 2 then 1 else 0), m, d)

/-- `t.Format(time.RFC3339)` (layout `2006-01-02T15:04:05Z07:00`): the wall
clock in `t`'s own location, with `Z` exactly when the zone offset is zero
and a signed `hh:mm` offset otherwise. -/
def rfc3339Format (t : GoTime) : List Char :=
  let wall := t.sec + t.offset
  let days := wall.fdiv 86400
  let secOfDay := (wall - days * 86400).toNat
  let ymd := civilFromDays days
  let zone : List Char :=
    if t.offset = 0 then ['Z']
    else
      (if t.offset < 0 then '-' else '+') ::
        (pad2 (t.offset.natAbs / 3600) ++ ':' :: pad2 (t.offset.natAbs % 3600 / 60))
  pad4 ymd.1.toNat ++ '-' :: pad2 ymd.2.1 ++ '-' :: pad2 ymd.2.2 ++
    'T' :: pad2 (secOfDay / 3600) ++ ':' :: pad2 (secOfDay % 3600 / 60) ++
    ':' :: pad2 (secOfDay % 60) ++ zone

/-- The creation-time rendering the spec describes: RFC3339 **in UTC** of the
same instant.  Modelled from the spec's words for comparison with the
source's `creationTime.Format(time.RFC3339)`. -/
def rfc3339UTC (sec : Int) : List Char :=
  rfc3339Format { sec := sec, offset := 0 }

example : rfc3339Format { sec := 0, offset := 0 } = "1970-01-01T00:00:00Z".data := by decide
example : rfc3339Format { sec := 0, offset := 32400 } = "1970-01-01T09:00:00+09:00".data := by
  decide
example : rfc3339Format { sec := 1577836800, offset := 0 } = "2020-01-01T00:00:00Z".data := by
  decide
example : rfc3339Format { sec := 1700000000, offset := -18000 } =
    "2023-11-14T17:13:20-05:00".data := by decide

/-! ### The external-tool phase of `mergeFiles` (`main.go` lines 88–135)

The byte-level effects (temp list file, `ffmpeg`, `SetFile`, `os.Chtimes`)
are opaque to the engine; the record below captures the data `mergeFiles`
hands them, in the order they would run.  Each manifest entry is written to
the list file as a line `file '<absolute path>'`; only the paths and their
order are kept.  `SetFile` receives `creationTime` rendered in the local
zone and `os.Chtimes` receives `(creationTime, modTime)`; both run only
after `ffmpeg` succeeds. -/

structure MergeEffects where
  /-- Paths listed in the concat manifest, in plan order. -/
  manifestPaths : List (List Char)
  /-- The `-metadata` argument `creation_time=...` of the ffmpeg command
  (`main.go` line 114). -/
  creationTimeArg : List Char
  /-- The output path given to ffmpeg, `SetFile` and `os.Chtimes`. -/
  outputPath : List Char
  /-- The `(atime, mtime)` pair passed to `os.Chtimes` (`main.go` line 132). -/
  chtimesArg : GoTime × GoTime
deriving DecidableEq

/-- `mergeFiles` (`main.go` lines 57–137): validate and order the inputs,
then hand the plan to the external tools.  A validation failure returns
before any external step. -/
def mergeFiles (abs : List Char → List Char) (outputPath : List Char)
    (inputPaths : List (List Char)) (creationTime modTime : GoTime) :
    Except GoErr MergeEffects :=
  match buildPlan abs inputPaths with
  | .error e => .error e
  | .ok plan =>
    .ok { manifestPaths := plan.map FileInfo.Path,
          creationTimeArg := "creation_time=".data ++ rfc3339Format creationTime,
          outputPath := outputPath,
          chtimesArg := (creationTime, modTime) }

/-! ### The Time Aggregator (`getFileTimes`, `main.go` lines 140–163)

`os.Stat` plus `times.Get` are modelled by the parameter `stat`: `none` when
the stat fails, otherwise the `HasBirthTime`/`BirthTime`/`ModTime` data.
Times here are integers ordered like `time.Time` instants, with `0`
representing Go's zero `time.Time` (January 1, year 1) so that `IsZero`
becomes `= 0`; every timestamp a real filesystem reports is positive on this
scale. -/

structure StatInfo where
  hasBirthTime : Bool
  birthTime : Int
  modTime : Int
deriving DecidableEq

/-- The loop of `getFileTimes` followed by the final zero check (`main.go`
lines 143–160): `oldestTime` and `modTime` both start at the zero value;
a birth time replaces `oldestTime` when one is reported and `oldestTime` is
still zero or the birth time is strictly older; `modTime` is a running
maximum. -/
def getFileTimesLoop (stat : List Char → Option StatInfo) (oldestTime modTime : Int) :
    List (List Char) → Except GoErr (Int × Int)
  | [] => if oldestTime = 0 then .error .missingCreationTime else .ok (oldestTime, modTime)
  | inputPath :: rest =>
    match stat inputPath with
    | none => .error (.statFailure inputPath)
    | some info =>
      getFileTimesLoop stat
        (if info.hasBirthTime = true ∧ (oldestTime = 0 ∨ info.birthTime < oldestTime)
         then info.birthTime else oldestTime)
        (if modTime < info.modTime then info.modTime else modTime)
        rest

/-- `getFileTimes` (`main.go` lines 140–163). -/
def getFileTimes (stat : List Char → Option StatInfo) (inputPaths : List (List Char)) :
    Except GoErr (Int × Int) :=
  getFileTimesLoop stat 0 0 inputPaths

/-- Birth times of the inputs that report one, in input order. -/
def reportedBirths (stat : List Char → Option StatInfo) (l : List (List Char)) : List Int :=
  l.filterMap fun p =>
    (stat p).bind fun info => if info.hasBirthTime then some info.birthTime else none

/-- Modification times of the stat-able inputs, in input order. -/
def modTimesList (stat : List Char → Option StatInfo) (l : List (List Char)) : List Int :=
  l.filterMap fun p => (stat p).map StatInfo.modTime

/-! ### The ordering key and its two order relations -/

/-- The ordering key of an input file. -/
def keyOf (fi : FileInfo) : Nat × Nat :=
  (fi.FileNumber, fi.ChapterNumber)

/-- Non-strict `(FileNumber, ChapterNumber)` lexicographic order. -/
def keyLE (a b : FileInfo) : Prop :=
  a.FileNumber < b.FileNumber ∨ (a.FileNumber = b.FileNumber ∧ a.ChapterNumber ≤ b.ChapterNumber)

/-- Strict `(FileNumber, ChapterNumber)` lexicographic order. -/
def keyLT (a b : FileInfo) : Prop :=
  a.FileNumber < b.FileNumber ∨ (a.FileNumber = b.FileNumber ∧ a.ChapterNumber < b.ChapterNumber)

instance (a b : FileInfo) : Decidable (keyLE a b) :=
  inferInstanceAs (Decidable (_ ∨ _))

instance (a b : FileInfo) : Decidable (keyLT a b) :=
  inferInstanceAs (Decidable (_ ∨ _))

theorem fileLess_iff {a b : FileInfo} : fileLess a b = true ↔ keyLT a b := by
  unfold fileLess keyLT
  by_cases h : a.FileNumber = b.FileNumber
  · simp [h]
  · simp [h]

theorem fileLess_eq_false_iff {a b : FileInfo} : fileLess a b = false ↔ keyLE b a := by
  unfold fileLess keyLE
  by_cases h : a.FileNumber = b.FileNumber
  · simp [h]
  · simp [h]
    omega

theorem keyLE_of_keyLT {a b : FileInfo} (h : keyLT a b) : keyLE a b := by
  unfold keyLT at h
  unfold keyLE
  omega

theorem keyLE_trans {a b c : FileInfo} (h1 : keyLE a b) (h2 : keyLE b c) : keyLE a c := by
  unfold keyLE at *
  omega

theorem keyLT_of_keyLE_of_ne {a b : FileInfo} (h1 : keyLE a b) (h2 : keyOf a ≠ keyOf b) :
    keyLT a b := by
  unfold keyLE at h1
  unfold keyOf at h2
  unfold keyLT
  rcases h1 with h1 | h1
  · exact Or.inl h1
  · refine Or.inr ⟨h1.1, ?_⟩
    rcases Nat.lt_or_ge a.ChapterNumber b.ChapterNumber with h3 | h3
    · exact h3
    · exact absurd (Prod.ext h1.1 (Nat.le_antisymm h1.2 h3)) h2

theorem keyLT_asymm {a b : FileInfo} (h1 : keyLT a b) (h2 : keyLT b a) : False := by
  unfold keyLT at *
  omega

/-! ### Properties of the insertion sort -/

theorem insertFile_perm (x : FileInfo) (l : List FileInfo) :
    List.Perm (insertFile x l) (x :: l) := by
  induction l with
  | nil => simp [insertFile]
  | cons y ys ih =>
    unfold insertFile
    by_cases h : fileLess x y = true
    · simp [h]
    · rw [if_neg h]
      exact (ih.cons y).trans (List.Perm.swap x y ys)

theorem insertFile_pairwise {x : FileInfo} {l : List FileInfo}
    (h : List.Pairwise keyLE l) : List.Pairwise keyLE (insertFile x l) := by
  induction l with
  | nil => simp [insertFile]
  | cons y ys ih =>
    rw [List.pairwise_cons] at h
    unfold insertFile
    by_cases hc : fileLess x y = true
    · rw [if_pos hc]
      have hxy : keyLE x y := keyLE_of_keyLT (fileLess_iff.mp hc)
      refine List.pairwise_cons.mpr ⟨?_, List.pairwise_cons.mpr h⟩
      intro z hz
      rcases List.mem_cons.mp hz with hz | hz
      · rw [hz]; exact hxy
      · exact keyLE_trans hxy (h.1 z hz)
    · rw [if_neg hc]
      have hyx : keyLE y x := fileLess_eq_false_iff.mp (Bool.eq_false_iff.mpr hc)
      refine List.pairwise_cons.mpr ⟨?_, ih h.2⟩
      intro z hz
      rcases List.mem_cons.mp ((insertFile_perm x ys).mem_iff.mp hz) with hz | hz
      · rw [hz]; exact hyx
      · exact h.1 z hz

theorem foldl_insertFile_perm (l : List FileInfo) :
    ∀ s : List FileInfo, List.Perm (l.foldl (fun t x => insertFile x t) s) (s ++ l) := by
  induction l with
  | nil => intro s; simp
  | cons x xs ih =>
    intro s
    have h1 := ih (insertFile x s)
    have h2 : List.Perm (insertFile x s ++ xs) ((x :: s) ++ xs) :=
      (insertFile_perm x s).append_right xs
    have h3 : List.Perm ((x :: s) ++ xs) (s ++ x :: xs) := by
      simpa using List.perm_middle.symm
    simp only [List.foldl_cons]
    exact (h1.trans h2).trans h3

theorem sortFiles_perm (l : List FileInfo) : List.Perm (sortFiles l) l := by
  simpa using foldl_insertFile_perm l []

theorem foldl_insertFile_pairwise (l : List FileInfo) :
    ∀ s : List FileInfo, List.Pairwise keyLE s →
      List.Pairwise keyLE (l.foldl (fun t x => insertFile x t) s) := by
  induction l with
  | nil => intro s hs; simpa using hs
  | cons x xs ih =>
    intro s hs
    simp only [List.foldl_cons]
    exact ih (insertFile x s) (insertFile_pairwise hs)

theorem sortFiles_pairwise (l : List FileInfo) : List.Pairwise keyLE (sortFiles l) :=
  foldl_insertFile_pairwise l [] (by simp)

/-! ### Characterising a successful validation pass -/

/-- The `FileInfo` an input path contributes to the plan when its name
parses: the parsed numbers with `Path` replaced by the absolute path
(`main.go` line 76).  The fallback branch is never reached on a successful
validation pass. -/
def itemOf (abs : List Char → List Char) (p : List Char) : FileInfo :=
  match parseFileName p with
  | .ok fi => { fi with Path := abs p }
  | .error _ => { Path := abs p, FileNumber := 0, ChapterNumber := 0 }

theorem collectFiles_ok {abs : List Char → List Char} :
    ∀ (l : List (List Char)) (seen : List (List Char)) (acc r : List FileInfo),
      collectFiles abs seen acc l = .ok r → r = acc ++ l.map (itemOf abs) := by
  intro l
  induction l with
  | nil =>
    intro seen acc r h
    simp only [collectFiles] at h
    cases h
    simp
  | cons p rest ih =>
    intro seen acc r h
    simp only [collectFiles] at h
    by_cases hmem : abs p ∈ seen
    · rw [if_pos hmem] at h
      exact absurd h (by simp)
    · rw [if_neg hmem] at h
      cases hp : parseFileName p with
      | error e => rw [hp] at h; exact absurd h (by simp)
      | ok fi =>
        rw [hp] at h
        have := ih _ _ _ h
        simp only [List.map_cons, itemOf, hp]
        rw [this, List.append_assoc]
        simp

theorem pairwise_keyLT {l : List FileInfo} (h1 : List.Pairwise keyLE l)
    (h2 : List.Pairwise (fun a b => keyOf a ≠ keyOf b) l) : List.Pairwise keyLT l := by
  induction l with
  | nil => simp
  | cons x xs ih =>
    rw [List.pairwise_cons] at h1 h2 ⊢
    exact ⟨fun z hz => keyLT_of_keyLE_of_ne (h1.1 z hz) (h2.1 z hz), ih h1.2 h2.2⟩

theorem sorted_keyLT_unique {l1 l2 : List FileInfo} (hp : List.Perm l1 l2)
    (h1 : List.Pairwise keyLT l1) (h2 : List.Pairwise keyLT l2) : l1 = l2 := by
  haveI : IsAntisymm FileInfo keyLT := ⟨fun _ _ ha hb => (keyLT_asymm ha hb).elim⟩
  exact List.eq_of_perm_of_sorted hp h1 h2

theorem buildPlan_ok {abs : List Char → List Char} {l : List (List Char)}
    {p : List FileInfo} (h : buildPlan abs l = .ok p) : p = sortFiles (l.map (itemOf abs)) := by
  unfold buildPlan at h
  cases hc : collectFiles abs [] [] l with
  | error e => rw [hc] at h; exact absurd h (by simp)
  | ok fs =>
    rw [hc] at h
    have hfs : fs = l.map (itemOf abs) := by simpa using collectFiles_ok l [] [] fs hc
    cases h
    rw [hfs]

/-- C1 (amended): a successful merge plan is the validated input files
(each the parse result of its path with `Path` replaced by the absolute
path) sorted by `(FileNumber, ChapterNumber)` ascending, and — provided no
two inputs share an ordering key — presenting the same file set in any input
order yields the same plan.  Unamended, order-independence fails when two
distinct files carry equal keys: the tie order follows the input order (see
the counterexample). -/
theorem c1_plan_sorted_deterministic (abs : List Char → List Char)
    (l1 l2 : List (List Char)) (p1 p2 : List FileInfo)
    (h1 : buildPlan abs l1 = .ok p1) :
    List.Pairwise keyLE p1 ∧ List.Perm p1 (l1.map (itemOf abs)) ∧
      (buildPlan abs l2 = .ok p2 → List.Perm l1 l2 →
        List.Pairwise (fun a b => keyOf a ≠ keyOf b) p1 → p1 = p2) := by
  have hp1 := buildPlan_ok h1
  have hsorted1 : List.Pairwise keyLE p1 := hp1 ▸ sortFiles_pairwise _
  have hperm1 : List.Perm p1 (l1.map (itemOf abs)) := hp1 ▸ sortFiles_perm _
  refine ⟨hsorted1, hperm1, ?_⟩
  intro h2 hl hkeys
  have hp2 := buildPlan_ok h2
  have hsorted2 : List.Pairwise keyLE p2 := hp2 ▸ sortFiles_pairwise _
  have hperm2 : List.Perm p2 (l2.map (itemOf abs)) := hp2 ▸ sortFiles_perm _
  have hp12 : List.Perm p1 p2 :=
    (hperm1.trans (hl.map (itemOf abs))).trans hperm2.symm
  have hkeys2 : List.Pairwise (fun a b => keyOf a ≠ keyOf b) p2 :=
    (hp12.pairwise_iff fun h => h.symm).mp hkeys
  exact sorted_keyLT_unique hp12 (pairwise_keyLT hsorted1 hkeys)
    (pairwise_keyLT hsorted2 hkeys2)

/-- Witness for C1: the two-file set `{/a/GH011234.MP4, /b/GH021234.MP4}`,
supplied in both orders, yields the same sorted plan. -/
theorem c1_plan_sorted_deterministic_witness :
    List.Pairwise keyLE
        [{ Path := "/a/GH011234.MP4".data, FileNumber := 1234, ChapterNumber := 1 },
         { Path := "/b/GH021234.MP4".data, FileNumber := 1234, ChapterNumber := 2 }] ∧
      List.Perm
        [{ Path := "/a/GH011234.MP4".data, FileNumber := 1234, ChapterNumber := 1 },
         { Path := "/b/GH021234.MP4".data, FileNumber := 1234, ChapterNumber := 2 }]
        (["/a/GH011234.MP4".data, "/b/GH021234.MP4".data].map (itemOf id)) ∧
      [({ Path := "/a/GH011234.MP4".data, FileNumber := 1234, ChapterNumber := 1 } : FileInfo),
       { Path := "/b/GH021234.MP4".data, FileNumber := 1234, ChapterNumber := 2 }] =
        [{ Path := "/a/GH011234.MP4".data, FileNumber := 1234, ChapterNumber := 1 },
         { Path := "/b/GH021234.MP4".data, FileNumber := 1234, ChapterNumber := 2 }] := by
  have h := c1_plan_sorted_deterministic id
    ["/a/GH011234.MP4".data, "/b/GH021234.MP4".data]
    ["/b/GH021234.MP4".data, "/a/GH011234.MP4".data]
    [{ Path := "/a/GH011234.MP4".data, FileNumber := 1234, ChapterNumber := 1 },
     { Path := "/b/GH021234.MP4".data, FileNumber := 1234, ChapterNumber := 2 }]
    [{ Path := "/a/GH011234.MP4".data, FileNumber := 1234, ChapterNumber := 1 },
     { Path := "/b/GH021234.MP4".data, FileNumber := 1234, ChapterNumber := 2 }]
    (by decide)
  exact ⟨h.1, h.2.1, h.2.2 (by decide) (by decide) (by decide)⟩

/-- Counterexample to C1 as stated: `/a/GH011234.MP4` and `/b/GH011234.MP4`
are distinct valid files with the same ordering key `(1234, 1)`; presenting
the same two-file set in its two possible orders yields two different merge
plans, so the ordering is not input-order independent. -/
theorem c1_counterexample :
    List.Perm ["/a/GH011234.MP4".data, "/b/GH011234.MP4".data]
        ["/b/GH011234.MP4".data, "/a/GH011234.MP4".data] ∧
      buildPlan id ["/a/GH011234.MP4".data, "/b/GH011234.MP4".data] =
        .ok [{ Path := "/a/GH011234.MP4".data, FileNumber := 1234, ChapterNumber := 1 },
             { Path := "/b/GH011234.MP4".data, FileNumber := 1234, ChapterNumber := 1 }] ∧
      buildPlan id ["/b/GH011234.MP4".data, "/a/GH011234.MP4".data] =
        .ok [{ Path := "/b/GH011234.MP4".data, FileNumber := 1234, ChapterNumber := 1 },
             { Path := "/a/GH011234.MP4".data, FileNumber := 1234, ChapterNumber := 1 }] ∧
      [({ Path := "/a/GH011234.MP4".data, FileNumber := 1234, ChapterNumber := 1 } : FileInfo),
       { Path := "/b/GH011234.MP4".data, FileNumber := 1234, ChapterNumber := 1 }] ≠
        [{ Path := "/b/GH011234.MP4".data, FileNumber := 1234, ChapterNumber := 1 },
         { Path := "/a/GH011234.MP4".data, FileNumber := 1234, ChapterNumber := 1 }] := by
  exact ⟨by decide, by decide, by decide, by decide⟩

/-! ### Structure of a successful pattern match -/

theorem matchPatHere_eq_some {l : List Char} {ch fn : Nat}
    (h : matchPatHere l = some (ch, fn)) :
    ∃ x c1 c2 f1 f2 f3 f4 m n rest,
      l = 'G' :: x :: c1 :: c2 :: f1 :: f2 :: f3 :: f4 :: '.' :: m :: n :: '4' :: rest ∧
      (x = 'H' ∨ x = 'X') ∧
      isDigitChar c1 = true ∧ isDigitChar c2 = true ∧
      isDigitChar f1 = true ∧ isDigitChar f2 = true ∧
      isDigitChar f3 = true ∧ isDigitChar f4 = true ∧
      goToUpper m = 'M' ∧ goToUpper n = 'P' ∧
      ch = digitVal c1 * 10 + digitVal c2 ∧
      fn = ((digitVal f1 * 10 + digitVal f2) * 10 + digitVal f3) * 10 + digitVal f4 := by
  unfold matchPatHere at h
  split at h
  case h_2 => exact absurd h (by simp)
  case h_1 g x c1 c2 f1 f2 f3 f4 dot m n q rest =>
    split at h
    case isFalse => exact absurd h (by simp)
    case isTrue hcond =>
      obtain ⟨hg, hx, hc1, hc2, hf1, hf2, hf3, hf4, hdot, hm, hn, hq⟩ := hcond
      simp only [Option.some.injEq, Prod.mk.injEq] at h
      refine ⟨x, c1, c2, f1, f2, f3, f4, m, n, rest, ?_, hx, hc1, hc2, hf1, hf2, hf3, hf4,
        hm, hn, h.1.symm, h.2.symm⟩
      rw [hg, hdot, hq]

theorem findPat_eq_some {u : List Char} {r : Nat × Nat} (h : findPat u = some r) :
    ∃ j, matchPatHere (u.drop j) = some r ∧ ∀ k < j, matchPatHere (u.drop k) = none := by
  induction u with
  | nil => exact absurd h (by simp [findPat])
  | cons c cs ih =>
    unfold findPat at h
    cases hm : matchPatHere (c :: cs) with
    | some r2 =>
      rw [hm] at h
      cases h
      exact ⟨0, hm, by omega⟩
    | none =>
      rw [hm] at h
      obtain ⟨j, hj, hfirst⟩ := ih h
      refine ⟨j + 1, by simpa using hj, ?_⟩
      intro k hk
      cases k with
      | zero => simpa using hm
      | succ k2 => simpa using hfirst k2 (by omega)

theorem findPat_isSome_of_here {u : List Char} :
    ∀ {i : Nat} {r : Nat × Nat}, matchPatHere (u.drop i) = some r →
      ∃ r2, findPat u = some r2 := by
  induction u with
  | nil => intro i r h; exact absurd h (by simp [matchPatHere])
  | cons c cs ih =>
    intro i r h
    unfold findPat
    cases hm : matchPatHere (c :: cs) with
    | some r2 => exact ⟨r2, rfl⟩
    | none =>
      cases i with
      | zero => rw [List.drop_zero] at h; exact absurd h (by simp [hm])
      | succ i2 => simpa using ih (by simpa using h)

/-- C4: for every path the Name Parser accepts, the ordering key is read
positionally out of the upper-cased base name: some occurrence of the
pattern decomposes it as `⟨prefix⟩ G(H|X) c₁c₂ f₁f₂f₃f₄ . mp4 ⟨suffix⟩` with
the letters matched case-insensitively (upper-casing first makes `GH`/`GX`
case-insensitive; the extension additionally via `(?i:)`), the two-digit
group giving `ChapterNumber` and the following four-digit group giving
`FileNumber`. -/
theorem c4_positional_extraction (p : List Char) (fi : FileInfo)
    (h : parseFileName p = .ok fi) :
    fi.Path = p ∧
    ∃ pre x c1 c2 f1 f2 f3 f4 m n rest,
      upperBase p =
        pre ++ 'G' :: x :: c1 :: c2 :: f1 :: f2 :: f3 :: f4 :: '.' :: m :: n :: '4' :: rest ∧
      (x = 'H' ∨ x = 'X') ∧
      isDigitChar c1 = true ∧ isDigitChar c2 = true ∧
      isDigitChar f1 = true ∧ isDigitChar f2 = true ∧
      isDigitChar f3 = true ∧ isDigitChar f4 = true ∧
      goToUpper m = 'M' ∧ goToUpper n = 'P' ∧
      fi.ChapterNumber = digitVal c1 * 10 + digitVal c2 ∧
      fi.FileNumber =
        ((digitVal f1 * 10 + digitVal f2) * 10 + digitVal f3) * 10 + digitVal f4 := by
  unfold parseFileName at h
  cases hf : findPat (upperBase p) with
  | none => rw [hf] at h; exact absurd h (by simp)
  | some r =>
    rw [hf] at h
    cases r with
    | mk ch fn =>
      cases h
      obtain ⟨j, hj, -⟩ := findPat_eq_some hf
      obtain ⟨x, c1, c2, f1, f2, f3, f4, m, n, rest, hdec, hx, hc1, hc2, hf1, hf2, hf3, hf4,
        hm, hn, hch, hfn⟩ := matchPatHere_eq_some hj
      refine ⟨rfl, (upperBase p).take j, x, c1, c2, f1, f2, f3, f4, m, n, rest, ?_, hx,
        hc1, hc2, hf1, hf2, hf3, hf4, hm, hn, hch, hfn⟩
      rw [← hdec, List.take_append_drop]

/-- Witness for C4: the mixed-case name `Gh011234.Mp4` parses and its
upper-cased base name decomposes around the match with chapter `01` and file
`1234`. -/
theorem c4_positional_extraction_witness :
    parseFileName "Gh011234.Mp4".data =
        .ok { Path := "Gh011234.Mp4".data, FileNumber := 1234, ChapterNumber := 1 } ∧
      ({ Path := "Gh011234.Mp4".data, FileNumber := 1234, ChapterNumber := 1 } :
          FileInfo).Path = "Gh011234.Mp4".data ∧
      ∃ pre x c1 c2 f1 f2 f3 f4 m n rest,
        upperBase "Gh011234.Mp4".data =
          pre ++ 'G' :: x :: c1 :: c2 :: f1 :: f2 :: f3 :: f4 :: '.' :: m :: n :: '4' :: rest ∧
        (x = 'H' ∨ x = 'X') ∧
        isDigitChar c1 = true ∧ isDigitChar c2 = true ∧
        isDigitChar f1 = true ∧ isDigitChar f2 = true ∧
        isDigitChar f3 = true ∧ isDigitChar f4 = true ∧
        goToUpper m = 'M' ∧ goToUpper n = 'P' ∧
        ({ Path := "Gh011234.Mp4".data, FileNumber := 1234, ChapterNumber := 1 } :
            FileInfo).ChapterNumber = digitVal c1 * 10 + digitVal c2 ∧
        ({ Path := "Gh011234.Mp4".data, FileNumber := 1234, ChapterNumber := 1 } :
            FileInfo).FileNumber =
          ((digitVal f1 * 10 + digitVal f2) * 10 + digitVal f3) * 10 + digitVal f4 := by
  have h := c4_positional_extraction "Gh011234.Mp4".data
    { Path := "Gh011234.Mp4".data, FileNumber := 1234, ChapterNumber := 1 } (by decide)
  exact ⟨by decide, h.1, h.2⟩

/-- C9: the pattern match is unanchored — whenever the upper-cased base name
contains the `G(H|X)␣2-digit␣4-digit␣.mp4` pattern anywhere as a substring,
parsing succeeds (no `InvalidFilenameFormat`) and the returned numbers come
from the leftmost occurrence. -/
theorem c9_unanchored (p : List Char)
    (h : ∃ i r, matchPatHere ((upperBase p).drop i) = some r) :
    ∃ fi j, parseFileName p = .ok fi ∧ fi.Path = p ∧
      matchPatHere ((upperBase p).drop j) = some (fi.ChapterNumber, fi.FileNumber) ∧
      ∀ k < j, matchPatHere ((upperBase p).drop k) = none := by
  obtain ⟨i, r, hir⟩ := h
  obtain ⟨r2, hr2⟩ := findPat_isSome_of_here hir
  cases r2 with
  | mk ch fn =>
    obtain ⟨j, hj, hfirst⟩ := findPat_eq_some hr2
    refine ⟨{ Path := p, FileNumber := fn, ChapterNumber := ch }, j, ?_, rfl, hj, hfirst⟩
    unfold parseFileName
    rw [hr2]

/-- Witness for C9: `xxGH011234.mp4yy` is not of the plain device naming
form, yet parses successfully; the match is found at offset 2 of the
upper-cased base name and yields chapter `01`, file `1234`. -/
theorem c9_unanchored_witness :
    ∃ fi j, parseFileName "xxGH011234.mp4yy".data = .ok fi ∧
      fi.Path = "xxGH011234.mp4yy".data ∧
      matchPatHere ((upperBase "xxGH011234.mp4yy".data).drop j) =
        some (fi.ChapterNumber, fi.FileNumber) ∧
      ∀ k < j, matchPatHere ((upperBase "xxGH011234.mp4yy".data).drop k) = none :=
  c9_unanchored "xxGH011234.mp4yy".data ⟨2, (1, 1234), by decide⟩

/-! ### The Time Aggregator's reduction as two list folds -/

/-- One step of the `oldestTime` reduction, for a file that reports a birth
time `b` (`main.go` lines 150–152). -/
def updBirth (o b : Int) : Int :=
  if o = 0 ∨ b < o then b else o

/-- One step of the `modTime` reduction (`main.go` lines 153–155). -/
def updMax (m x : Int) : Int :=
  if m < x then x else m

theorem getFileTimesLoop_eq_folds {stat : List Char → Option StatInfo} :
    ∀ (l : List (List Char)) (oldest mod : Int), (∀ p ∈ l, (stat p).isSome = true) →
      getFileTimesLoop stat oldest mod l =
        (if (reportedBirths stat l).foldl updBirth oldest = 0
         then .error .missingCreationTime
         else .ok ((reportedBirths stat l).foldl updBirth oldest,
                   (modTimesList stat l).foldl updMax mod)) := by
  intro l
  induction l with
  | nil => intro oldest mod _; simp [getFileTimesLoop, reportedBirths, modTimesList]
  | cons p rest ih =>
    intro oldest mod hall
    obtain ⟨info, hinfo⟩ := Option.isSome_iff_exists.mp (hall p (by simp))
    have hrest : ∀ x ∈ rest, (stat x).isSome = true := fun x hx => hall x (by simp [hx])
    have hmods : modTimesList stat (p :: rest) = info.modTime :: modTimesList stat rest := by
      simp [modTimesList, hinfo]
    simp only [getFileTimesLoop, hinfo]
    cases hb : info.hasBirthTime with
    | true =>
      have hbirths : reportedBirths stat (p :: rest) =
          info.birthTime :: reportedBirths stat rest := by
        simp [reportedBirths, hinfo, hb]
      rw [ih _ _ hrest, hbirths, hmods, List.foldl_cons, List.foldl_cons]
      simp only [hb, true_and, updBirth, updMax]
    | false =>
      have hbirths : reportedBirths stat (p :: rest) = reportedBirths stat rest := by
        simp [reportedBirths, hinfo, hb]
      rw [ih _ _ hrest, hbirths, hmods, List.foldl_cons]
      simp only [hb, Bool.false_eq_true, false_and, if_false, updMax]

theorem foldl_updMax_spec :
    ∀ (ms : List Int) (m : Int),
      ms.foldl updMax m ∈ m :: ms ∧ ∀ x ∈ m :: ms, x ≤ ms.foldl updMax m := by
  intro ms
  induction ms with
  | nil => intro m; simp
  | cons x ms ih =>
    intro m
    rw [List.foldl_cons]
    obtain ⟨hmem, hbound⟩ := ih (updMax m x)
    have hcases : updMax m x = m ∨ updMax m x = x := by unfold updMax; split <;> simp
    have hmx : m ≤ updMax m x ∧ x ≤ updMax m x := by unfold updMax; split <;> omega
    constructor
    · rcases List.mem_cons.mp hmem with h | h
      · rcases hcases with h2 | h2 <;> rw [h, h2] <;> simp
      · simp [h]
    · intro y hy
      have hu : updMax m x ≤ ms.foldl updMax (updMax m x) := hbound _ (by simp)
      rcases List.mem_cons.mp hy with h | h
      · omega
      · rcases List.mem_cons.mp h with h2 | h2
        · subst h2; omega
        · exact hbound y (by simp [h2])

theorem foldl_updBirth_pos_spec :
    ∀ (bs : List Int) (o : Int), 0 < o → (∀ b ∈ bs, 0 < b) →
      bs.foldl updBirth o ∈ o :: bs ∧ (∀ x ∈ o :: bs, bs.foldl updBirth o ≤ x) ∧
        0 < bs.foldl updBirth o := by
  intro bs
  induction bs with
  | nil => intro o ho _; simpa using ho
  | cons b bs ih =>
    intro o ho hpos
    rw [List.foldl_cons]
    have hbpos : 0 < b := hpos b (by simp)
    have hub : updBirth o b = b ∨ updBirth o b = o := by unfold updBirth; split <;> simp
    have hle : updBirth o b ≤ o ∧ updBirth o b ≤ b := by unfold updBirth; split <;> omega
    have hupos : 0 < updBirth o b := by rcases hub with h | h <;> omega
    obtain ⟨hmem, hbound, hpos2⟩ := ih (updBirth o b) hupos (fun x hx => hpos x (by simp [hx]))
    refine ⟨?_, ?_, hpos2⟩
    · rcases List.mem_cons.mp hmem with h | h
      · rcases hub with h2 | h2 <;> rw [h, h2] <;> simp
      · simp [h]
    · intro y hy
      have hu : bs.foldl updBirth (updBirth o b) ≤ updBirth o b := hbound _ (by simp)
      rcases List.mem_cons.mp hy with h | h
      · omega
      · rcases List.mem_cons.mp h with h2 | h2
        · subst h2; omega
        · exact hbound y (by simp [h2])

theorem foldl_updBirth_zero_spec {bs : List Int} (hpos : ∀ b ∈ bs, 0 < b) (hne : bs ≠ []) :
    bs.foldl updBirth 0 ∈ bs ∧ (∀ x ∈ bs, bs.foldl updBirth 0 ≤ x) ∧
      0 < bs.foldl updBirth 0 := by
  cases bs with
  | nil => exact absurd rfl hne
  | cons b rest =>
    rw [List.foldl_cons]
    have hb0 : updBirth 0 b = b := by unfold updBirth; simp
    rw [hb0]
    have hbpos : 0 < b := hpos b (by simp)
    obtain ⟨hmem, hbound, hpos2⟩ :=
      foldl_updBirth_pos_spec rest b hbpos (fun x hx => hpos x (by simp [hx]))
    exact ⟨hmem, hbound, hpos2⟩

theorem mem_reportedBirths {stat : List Char → Option StatInfo} {l : List (List Char)}
    {b : Int} :
    b ∈ reportedBirths stat l ↔
      ∃ p ∈ l, ∃ info, stat p = some info ∧ info.hasBirthTime = true ∧
        info.birthTime = b := by
  unfold reportedBirths
  rw [List.mem_filterMap]
  constructor
  · rintro ⟨p, hp, hf⟩
    cases hs : stat p with
    | none => rw [hs] at hf; exact absurd hf (by simp)
    | some info =>
      rw [hs] at hf
      simp only [Option.some_bind] at hf
      by_cases hb : info.hasBirthTime
      · rw [if_pos hb] at hf
        exact ⟨p, hp, info, hs, hb, by simpa using hf⟩
      · rw [if_neg hb] at hf; exact absurd hf (by simp)
  · rintro ⟨p, hp, info, hs, hb, hbt⟩
    exact ⟨p, hp, by rw [hs]; simp [hb, hbt]⟩

theorem mem_modTimesList {stat : List Char → Option StatInfo} {l : List (List Char)}
    {x : Int} :
    x ∈ modTimesList stat l ↔
      ∃ p ∈ l, ∃ info, stat p = some info ∧ info.modTime = x := by
  unfold modTimesList
  rw [List.mem_filterMap]
  constructor
  · rintro ⟨p, hp, hf⟩
    cases hs : stat p with
    | none => rw [hs] at hf; exact absurd hf (by simp)
    | some info => rw [hs] at hf; exact ⟨p, hp, info, hs, by simpa using hf⟩
  · rintro ⟨p, hp, info, hs, hx⟩
    exact ⟨p, hp, by rw [hs]; simpa using hx⟩

/-- Core characterisation of a successful aggregation: with every input
stat-able, every reported timestamp positive on the model's scale (true of
any real filesystem time, which postdates Go's zero time), and at least one
birth time reported, the result is the minimum reported birth time paired
with the maximum modification time. -/
theorem getFileTimes_ok_spec (stat : List Char → Option StatInfo) (l : List (List Char))
    (hall : ∀ p ∈ l, ∃ info, stat p = some info ∧ 0 < info.modTime ∧
      (info.hasBirthTime = true → 0 < info.birthTime))
    (hbirth : reportedBirths stat l ≠ []) :
    ∃ b m, getFileTimes stat l = .ok (b, m) ∧
      b ∈ reportedBirths stat l ∧ (∀ x ∈ reportedBirths stat l, b ≤ x) ∧
      m ∈ modTimesList stat l ∧ (∀ x ∈ modTimesList stat l, x ≤ m) := by
  have hsome : ∀ p ∈ l, (stat p).isSome = true := by
    intro p hp
    obtain ⟨info, hinfo, -⟩ := hall p hp
    simp [hinfo]
  have hbpos : ∀ b ∈ reportedBirths stat l, 0 < b := by
    intro b hb
    obtain ⟨p, hp, info, hs, hhb, hbt⟩ := mem_reportedBirths.mp hb
    obtain ⟨info2, hs2, -, hpos⟩ := hall p hp
    rw [hs] at hs2
    cases hs2
    exact hbt ▸ hpos hhb
  have hmpos : ∀ x ∈ modTimesList stat l, 0 < x := by
    intro x hx
    obtain ⟨p, hp, info, hs, hmt⟩ := mem_modTimesList.mp hx
    obtain ⟨info2, hs2, hpos, -⟩ := hall p hp
    rw [hs] at hs2
    cases hs2
    exact hmt ▸ hpos
  obtain ⟨hbmem, hbbound, hbpos2⟩ := foldl_updBirth_zero_spec hbpos hbirth
  obtain ⟨hmmem, hmbound⟩ := foldl_updMax_spec (modTimesList stat l) 0
  have hmods_ne : modTimesList stat l ≠ [] := by
    cases l with
    | nil => simp [reportedBirths] at hbirth
    | cons p rest =>
      obtain ⟨info, hinfo, -⟩ := hall p (by simp)
      simp [modTimesList, hinfo]
  have hmpos2 : 0 < (modTimesList stat l).foldl updMax 0 := by
    cases hml : modTimesList stat l with
    | nil => exact absurd hml hmods_ne
    | cons x xs =>
      have hx : 0 < x := hmpos x (by simp [hml])
      have hb2 := hmbound x (by simp [hml])
      rw [hml] at hb2
      omega
  have hmmem2 : (modTimesList stat l).foldl updMax 0 ∈ modTimesList stat l := by
    rcases List.mem_cons.mp hmmem with h | h
    · omega
    · exact h
  refine ⟨(reportedBirths stat l).foldl updBirth 0, (modTimesList stat l).foldl updMax 0,
    ?_, hbmem, hbbound, hmmem2, fun x hx => hmbound x (by simp [hx])⟩
  unfold getFileTimes
  rw [getFileTimesLoop_eq_folds l 0 0 hsome]
  rw [if_neg (by omega)]

/-- C2: for every non-empty list of stat-able input paths — realistic in that
every reported timestamp postdates Go's zero `time.Time` (positive on the
model's scale) and at least one file reports a birth time — the aggregate is
`(earliest creation, latest modification)`: the returned creation time is the
minimum birth time among the files that report one and the returned
modification time is the maximum modification time among all files, and the
same pair is returned for any reordering of the input list. -/
theorem c2_earliest_creation_latest_modification
    (stat : List Char → Option StatInfo) (l : List (List Char))
    (hall : ∀ p ∈ l, ∃ info, stat p = some info ∧ 0 < info.modTime ∧
      (info.hasBirthTime = true → 0 < info.birthTime))
    (hbirth : reportedBirths stat l ≠ []) :
    ∃ b m, getFileTimes stat l = .ok (b, m) ∧
      b ∈ reportedBirths stat l ∧ (∀ x ∈ reportedBirths stat l, b ≤ x) ∧
      m ∈ modTimesList stat l ∧ (∀ x ∈ modTimesList stat l, x ≤ m) ∧
      ∀ l2, List.Perm l l2 → getFileTimes stat l2 = .ok (b, m) := by
  obtain ⟨b, m, hok, hbm, hbb, hmm, hmb⟩ := getFileTimes_ok_spec stat l hall hbirth
  refine ⟨b, m, hok, hbm, hbb, hmm, hmb, ?_⟩
  intro l2 hperm
  have hall2 : ∀ p ∈ l2, ∃ info, stat p = some info ∧ 0 < info.modTime ∧
      (info.hasBirthTime = true → 0 < info.birthTime) :=
    fun p hp => hall p (hperm.mem_iff.mpr hp)
  have hpermB : List.Perm (reportedBirths stat l) (reportedBirths stat l2) :=
    hperm.filterMap _
  have hpermM : List.Perm (modTimesList stat l) (modTimesList stat l2) :=
    hperm.filterMap _
  have hbirth2 : reportedBirths stat l2 ≠ [] := by
    intro h
    rw [h] at hpermB
    exact hbirth hpermB.eq_nil
  obtain ⟨b2, m2, hok2, hbm2, hbb2, hmm2, hmb2⟩ := getFileTimes_ok_spec stat l2 hall2 hbirth2
  have hbeq : b2 = b :=
    le_antisymm (hbb2 b (hpermB.mem_iff.mp hbm)) (hbb b2 (hpermB.mem_iff.mpr hbm2))
  have hmeq : m2 = m :=
    le_antisymm (hmb m2 (hpermM.mem_iff.mpr hmm2)) (hmb2 m (hpermM.mem_iff.mp hmm))
  rw [hok2, hbeq, hmeq]

/-- A concrete two-file filesystem for the C2 witness: `a` has birth time
`T1 = 100`, modification `M1 = 10`; `b` has birth time `T2 = 200`,
modification `M2 = 20`. -/
def statTwoFiles : List Char → Option StatInfo := fun p =>
  if p = "a".data then some { hasBirthTime := true, birthTime := 100, modTime := 10 }
  else if p = "b".data then some { hasBirthTime := true, birthTime := 200, modTime := 20 }
  else none

/-- Witness for C2: with `T1 < T2` and `M1 < M2` the aggregate is `(T1, M2)`
in both input orders. -/
theorem c2_earliest_creation_latest_modification_witness :
    getFileTimes statTwoFiles ["a".data, "b".data] = .ok (100, 20) ∧
      getFileTimes statTwoFiles ["b".data, "a".data] = .ok (100, 20) ∧
      ∃ b m, getFileTimes statTwoFiles ["a".data, "b".data] = .ok (b, m) ∧
        b ∈ reportedBirths statTwoFiles ["a".data, "b".data] ∧
        (∀ x ∈ reportedBirths statTwoFiles ["a".data, "b".data], b ≤ x) ∧
        m ∈ modTimesList statTwoFiles ["a".data, "b".data] ∧
        (∀ x ∈ modTimesList statTwoFiles ["a".data, "b".data], x ≤ m) ∧
        ∀ l2, List.Perm ["a".data, "b".data] l2 →
          getFileTimes statTwoFiles l2 = .ok (b, m) := by
  refine ⟨by decide, by decide, ?_⟩
  refine c2_earliest_creation_latest_modification statTwoFiles ["a".data, "b".data] ?_
    (by decide)
  intro p hp
  rcases List.mem_cons.mp hp with h | hp2
  · subst h
    exact ⟨{ hasBirthTime := true, birthTime := 100, modTime := 10 },
      by decide, by decide, by decide⟩
  · rcases List.mem_cons.mp hp2 with h | hp3
    · subst h
      exact ⟨{ hasBirthTime := true, birthTime := 200, modTime := 20 },
        by decide, by decide, by decide⟩
    · exact absurd hp3 (by simp)

/-- If the first stat failure sits at `q`, the loop aborts there with a
`StatFailure` naming `q`, whatever the accumulators hold. -/
theorem getFileTimesLoop_statFailure {stat : List Char → Option StatInfo}
    {q : List Char} (hq : stat q = none) (post : List (List Char)) :
    ∀ (pre : List (List Char)) (oldest mod : Int), (∀ p ∈ pre, (stat p).isSome = true) →
      getFileTimesLoop stat oldest mod (pre ++ q :: post) = .error (.statFailure q) := by
  intro pre
  induction pre with
  | nil =>
    intro oldest mod _
    simp only [List.nil_append, getFileTimesLoop, hq]
  | cons p rest ih =>
    intro oldest mod hall
    obtain ⟨info, hinfo⟩ := Option.isSome_iff_exists.mp (hall p (by simp))
    simp only [List.cons_append, getFileTimesLoop, hinfo]
    exact ih _ _ (fun x hx => hall x (by simp [hx]))

/-- C6: the Time Aggregator fails rather than degrading: (first part) on a
non-empty list of stat-able inputs none of which reports a birth time, it
returns `MissingCreationTime`; (second part) on a list containing a
non-stat-able path, it returns `StatFailure` naming the first such path. -/
theorem c6_missing_birth_and_stat_failures :
    (∀ (stat : List Char → Option StatInfo) (l : List (List Char)), l ≠ [] →
        (∀ p ∈ l, ∃ info, stat p = some info ∧ info.hasBirthTime = false) →
        getFileTimes stat l = .error .missingCreationTime) ∧
      (∀ (stat : List Char → Option StatInfo) (pre post : List (List Char)) (q : List Char),
        (∀ p ∈ pre, (stat p).isSome = true) → stat q = none →
        getFileTimes stat (pre ++ q :: post) = .error (.statFailure q)) := by
  constructor
  · intro stat l _ hnone
    have hsome : ∀ p ∈ l, (stat p).isSome = true := by
      intro p hp
      obtain ⟨info, hinfo, -⟩ := hnone p hp
      simp [hinfo]
    have hempty : reportedBirths stat l = [] := by
      apply List.filterMap_eq_nil_iff.mpr
      intro p hp
      obtain ⟨info, hinfo, hb⟩ := hnone p hp
      simp [hinfo, hb]
    unfold getFileTimes
    rw [getFileTimesLoop_eq_folds l 0 0 hsome, hempty]
    simp
  · intro stat pre post q hpre hq
    exact getFileTimesLoop_statFailure hq post pre 0 0 hpre

/-- A concrete filesystem for the C6 witness: `a` is stat-able but reports
no birth time; `b` cannot be stat-ed at all. -/
def statBirthless : List Char → Option StatInfo := fun p =>
  if p = "a".data then some { hasBirthTime := false, birthTime := 0, modTime := 10 }
  else none

/-- Witness for C6: `[a]` (stat-able, birthless) yields
`MissingCreationTime`; `[a, b]` with `b` non-stat-able yields
`StatFailure b`. -/
theorem c6_missing_birth_and_stat_failures_witness :
    getFileTimes statBirthless ["a".data] = .error .missingCreationTime ∧
      getFileTimes statBirthless (["a".data] ++ "b".data :: []) =
        .error (.statFailure "b".data) := by
  constructor
  · refine c6_missing_birth_and_stat_failures.1 statBirthless ["a".data] (by simp) ?_
    intro p hp
    rcases List.mem_cons.mp hp with h | hp2
    · subst h
      exact ⟨{ hasBirthTime := false, birthTime := 0, modTime := 10 }, by decide, by decide⟩
    · exact absurd hp2 (by simp)
  · refine c6_missing_birth_and_stat_failures.2 statBirthless ["a".data] [] "b".data ?_
      (by decide)
    intro p hp
    rcases List.mem_cons.mp hp with h | hp2
    · subst h
      decide
    · exact absurd hp2 (by simp)

/-- C10: on the empty input list the reduction scans nothing, the running
minimum is still the zero time, and `getFileTimes` returns the
`MissingCreationTime` error rather than succeeding with defaults — for every
model filesystem. -/
theorem c10_empty_input_missing_creation (stat : List Char → Option StatInfo) :
    getFileTimes stat [] = .error .missingCreationTime := by
  simp [getFileTimes, getFileTimesLoop]

/-! ### Duplicate detection and parse-error propagation in `mergeFiles` -/

theorem collectFiles_dup {abs : List Char → List Char} :
    ∀ (l : List (List Char)) (seen : List (List Char)) (acc : List FileInfo),
      (∀ p ∈ l, ∃ fi, parseFileName p = .ok fi) →
      seen.Nodup → ¬ (seen ++ l.map abs).Nodup →
      ∃ d, collectFiles abs seen acc l = .error (.duplicateFile d) ∧
        2 ≤ (seen ++ l.map abs).count d ∧ d ∈ l.map abs := by
  intro l
  induction l with
  | nil =>
    intro seen acc _ hseen hdup
    rw [List.map_nil, List.append_nil] at hdup
    exact absurd hseen hdup
  | cons p rest ih =>
    intro seen acc hvalid hseen hdup
    by_cases hmem : abs p ∈ seen
    · refine ⟨abs p, by simp [collectFiles, hmem], ?_, by simp⟩
      have h1 : 0 < seen.count (abs p) := List.count_pos_iff.mpr hmem
      rw [List.map_cons, List.count_append, List.count_cons_self]
      omega
    · obtain ⟨fi, hfi⟩ := hvalid p (by simp)
      have hperm : List.Perm (seen ++ (p :: rest).map abs)
          ((abs p :: seen) ++ rest.map abs) := by
        rw [List.map_cons]
        simp
      have hdup2 : ¬ ((abs p :: seen) ++ rest.map abs).Nodup := by
        intro h
        exact hdup (hperm.nodup_iff.mpr h)
      have hseen2 : (abs p :: seen).Nodup := List.nodup_cons.mpr ⟨hmem, hseen⟩
      obtain ⟨d, herr, hcount, hdmem⟩ :=
        ih (abs p :: seen) (acc ++ [{ fi with Path := abs p }])
          (fun x hx => hvalid x (by simp [hx])) hseen2 hdup2
      refine ⟨d, ?_, ?_, by simp [hdmem]⟩
      · simp only [collectFiles, if_neg hmem, hfi]
        exact herr
      · simp only [List.map_cons, List.count_append, List.count_cons, List.cons_append] at hcount ⊢
        omega

/-- C3 (amended): when every input filename parses, an input list containing
two paths resolving to the same absolute path makes `mergeFiles` fail with a
`DuplicateInput` error naming a path that indeed occurs (at least) twice
among the resolved absolute paths, and no external concatenation or
timestamp step runs (no `MergeEffects` are produced).  Unamended, the error
kind is wrong when a malformed filename sits at an earlier position of the
list than the duplicate occurrence: validation then aborts — still before
any external step — with `InvalidFilenameFormat` instead (see the
counterexample). -/
theorem c3_duplicate_input (abs : List Char → List Char) (out : List Char)
    (l : List (List Char)) (ct mt : GoTime)
    (hvalid : ∀ p ∈ l, ∃ fi, parseFileName p = .ok fi)
    (hdup : ¬ (l.map abs).Nodup) :
    ∃ d, mergeFiles abs out l ct mt = .error (.duplicateFile d) ∧
      2 ≤ (l.map abs).count d ∧
      ∀ eff, mergeFiles abs out l ct mt ≠ .ok eff := by
  obtain ⟨d, herr, hcount, -⟩ :=
    collectFiles_dup l [] [] hvalid (by simp) (by simpa using hdup)
  refine ⟨d, ?_, by simpa using hcount, ?_⟩
  · simp [mergeFiles, buildPlan, herr]
  · intro eff
    simp [mergeFiles, buildPlan, herr]

/-- Witness for C3: supplying `/a/GH011234.MP4` twice fails with
`DuplicateInput` and produces no effects. -/
theorem c3_duplicate_input_witness :
    ∃ d, mergeFiles id "out".data ["/a/GH011234.MP4".data, "/a/GH011234.MP4".data]
          { sec := 0, offset := 0 } { sec := 0, offset := 0 } =
        .error (.duplicateFile d) ∧
      2 ≤ (["/a/GH011234.MP4".data, "/a/GH011234.MP4".data].map id).count d ∧
      ∀ eff, mergeFiles id "out".data ["/a/GH011234.MP4".data, "/a/GH011234.MP4".data]
          { sec := 0, offset := 0 } { sec := 0, offset := 0 } ≠ .ok eff := by
  refine c3_duplicate_input id "out".data _ _ _ ?_ (by decide)
  intro p hp
  have hp2 : p = "/a/GH011234.MP4".data := by
    rcases List.mem_cons.mp hp with h | h
    · exact h
    · simpa using h
  subst hp2
  exact ⟨{ Path := "/a/GH011234.MP4".data, FileNumber := 1234, ChapterNumber := 1 }, by decide⟩

/-- Counterexample to C3 as stated: the list `[/a/bad.mp4, /a/bad.mp4]`
contains two paths resolving to the same absolute path, yet the merge fails
with `InvalidFilenameFormat` (the first element's parse failure fires before
the second element's duplicate check), not with `DuplicateInput`. -/
theorem c3_counterexample :
    2 ≤ (["/a/bad.mp4".data, "/a/bad.mp4".data].map id).count "/a/bad.mp4".data ∧
      mergeFiles id "out".data ["/a/bad.mp4".data, "/a/bad.mp4".data]
          { sec := 0, offset := 0 } { sec := 0, offset := 0 } =
        .error (.invalidFileFormat "/a/bad.mp4".data) ∧
      ∀ d, GoErr.invalidFileFormat "/a/bad.mp4".data ≠ .duplicateFile d := by
  refine ⟨by decide, by decide, ?_⟩
  intro d h
  simp at h

theorem collectFiles_invalid {abs : List Char → List Char} {bad : List Char} {e : GoErr}
    (hbad : parseFileName bad = .error e) (rest : List (List Char)) :
    ∀ (pre : List (List Char)) (seen : List (List Char)) (acc : List FileInfo),
      (∀ p ∈ pre, ∃ fi, parseFileName p = .ok fi) →
      (seen ++ (pre ++ [bad]).map abs).Nodup →
      collectFiles abs seen acc (pre ++ bad :: rest) = .error e := by
  intro pre
  induction pre with
  | nil =>
    intro seen acc _ hn
    have hmem : abs bad ∉ seen := by
      intro h
      exact (List.nodup_append.mp (by simpa using hn)).2.2 h (by simp)
    simp [collectFiles, hmem, hbad]
  | cons p pre2 ih =>
    intro seen acc hvalid hn
    have hmem : abs p ∉ seen := by
      intro h
      exact (List.nodup_append.mp hn).2.2 h (by simp)
    obtain ⟨fi, hfi⟩ := hvalid p (by simp)
    have hperm : List.Perm (seen ++ ((p :: pre2) ++ [bad]).map abs)
        ((abs p :: seen) ++ (pre2 ++ [bad]).map abs) := by
      simp only [List.cons_append, List.map_cons]
      simp
    have hn2 : ((abs p :: seen) ++ (pre2 ++ [bad]).map abs).Nodup :=
      hperm.nodup_iff.mp hn
    simp only [List.cons_append, collectFiles, if_neg hmem, hfi]
    exact ih (abs p :: seen) (acc ++ [{ fi with Path := abs p }])
      (fun x hx => hvalid x (by simp [hx])) hn2

/-- C5 (amended): when the inputs before the first malformed filename all
parse and introduce no duplicate absolute path, a list containing a
malformed filename makes `mergeFiles` fail with that filename's
`InvalidFilenameFormat` error propagated unchanged, aborting the whole merge
before any external tool invocation (no `MergeEffects`).  Unamended, the
error kind is wrong when a duplicate absolute path occurs before the
malformed name: validation then aborts — still before any external step —
with `DuplicateInput` instead (see the counterexample). -/
theorem c5_invalid_filename_aborts (abs : List Char → List Char) (out : List Char)
    (pre rest : List (List Char)) (bad : List Char) (ct mt : GoTime)
    (hpre : ∀ p ∈ pre, ∃ fi, parseFileName p = .ok fi)
    (hbad : parseFileName bad = .error (.invalidFileFormat bad))
    (hnodup : ((pre ++ [bad]).map abs).Nodup) :
    mergeFiles abs out (pre ++ bad :: rest) ct mt = .error (.invalidFileFormat bad) ∧
      ∀ eff, mergeFiles abs out (pre ++ bad :: rest) ct mt ≠ .ok eff := by
  have herr := collectFiles_invalid hbad rest pre [] [] hpre (by simpa using hnodup)
  constructor
  · simp [mergeFiles, buildPlan, herr]
  · intro eff
    simp [mergeFiles, buildPlan, herr]

/-- Witness for C5: `[/a/GH011234.MP4, randomfile.mp4]` aborts with
`InvalidFilenameFormat` naming `randomfile.mp4`, before any external step. -/
theorem c5_invalid_filename_aborts_witness :
    mergeFiles id "out".data (["/a/GH011234.MP4".data] ++ "randomfile.mp4".data :: [])
        { sec := 0, offset := 0 } { sec := 0, offset := 0 } =
      .error (.invalidFileFormat "randomfile.mp4".data) ∧
      ∀ eff, mergeFiles id "out".data
          (["/a/GH011234.MP4".data] ++ "randomfile.mp4".data :: [])
          { sec := 0, offset := 0 } { sec := 0, offset := 0 } ≠ .ok eff := by
  refine c5_invalid_filename_aborts id "out".data ["/a/GH011234.MP4".data] []
    "randomfile.mp4".data _ _ ?_ (by decide) (by decide)
  intro p hp
  have hp2 : p = "/a/GH011234.MP4".data := by simpa using hp
  subst hp2
  exact ⟨{ Path := "/a/GH011234.MP4".data, FileNumber := 1234, ChapterNumber := 1 }, by decide⟩

/-- Counterexample to C5 as stated: `[/a/GH011234.MP4, /a/GH011234.MP4,
randomfile.mp4]` contains a filename failing the pattern, yet the merge
fails with `DuplicateInput` (the duplicate check of the second element fires
before the third element is parsed), not with `InvalidFilenameFormat`. -/
theorem c5_counterexample :
    parseFileName "randomfile.mp4".data =
        .error (.invalidFileFormat "randomfile.mp4".data) ∧
      "randomfile.mp4".data ∈
        ["/a/GH011234.MP4".data, "/a/GH011234.MP4".data, "randomfile.mp4".data] ∧
      mergeFiles id "out".data
          ["/a/GH011234.MP4".data, "/a/GH011234.MP4".data, "randomfile.mp4".data]
          { sec := 0, offset := 0 } { sec := 0, offset := 0 } =
        .error (.duplicateFile "/a/GH011234.MP4".data) ∧
      ∀ q, GoErr.duplicateFile "/a/GH011234.MP4".data ≠ .invalidFileFormat q := by
  refine ⟨by decide, by decide, by decide, ?_⟩
  intro q h
  simp at h

/-! ### The creation-time metadata argument and the single-file merge -/

/-- C7 (amended): on every successful merge the `creation_time` metadata
argument handed to the concatenation tool is the aggregated creation time
rendered in RFC3339 format **in the time value's own zone** (Go's
`Format(time.RFC3339)` uses the value's location, and the program-computed
aggregate lives in the process-local zone); it coincides with the UTC
rendering of the same instant exactly when that zone offset is zero.
Unamended, "in UTC" fails for any non-UTC zone (see the counterexample). -/
theorem c7_creation_time_metadata (abs : List Char → List Char) (out : List Char)
    (l : List (List Char)) (ct mt : GoTime) (eff : MergeEffects)
    (h : mergeFiles abs out l ct mt = .ok eff) :
    eff.creationTimeArg = "creation_time=".data ++ rfc3339Format ct ∧
      (ct.offset = 0 → eff.creationTimeArg = "creation_time=".data ++ rfc3339UTC ct.sec) := by
  unfold mergeFiles at h
  cases hb : buildPlan abs l with
  | error e => rw [hb] at h; exact absurd h (by simp)
  | ok plan =>
    rw [hb] at h
    cases h
    constructor
    · rfl
    · intro h0
      unfold rfc3339UTC
      cases ct with
      | mk sec off =>
        simp only at h0
        rw [h0]

/-- Witness for C7: a successful single-file merge with a UTC-zoned
aggregate embeds `creation_time=1970-01-01T00:00:00Z`, the UTC rendering. -/
theorem c7_creation_time_metadata_witness :
    ({ manifestPaths := ["/a/GH011234.MP4".data],
       creationTimeArg := "creation_time=1970-01-01T00:00:00Z".data,
       outputPath := "out".data,
       chtimesArg := ({ sec := 0, offset := 0 }, { sec := 0, offset := 0 }) } :
         MergeEffects).creationTimeArg =
        "creation_time=".data ++ rfc3339Format { sec := 0, offset := 0 } ∧
      ((0 : Int) = 0 →
        ({ manifestPaths := ["/a/GH011234.MP4".data],
           creationTimeArg := "creation_time=1970-01-01T00:00:00Z".data,
           outputPath := "out".data,
           chtimesArg := ({ sec := 0, offset := 0 }, { sec := 0, offset := 0 }) } :
             MergeEffects).creationTimeArg =
          "creation_time=".data ++ rfc3339UTC 0) :=
  c7_creation_time_metadata id "out".data ["/a/GH011234.MP4".data]
    { sec := 0, offset := 0 } { sec := 0, offset := 0 } _ (by decide)

/-- Counterexample to C7 as stated: a successful merge whose aggregated
creation time carries a `+09:00` zone (as a `time.Unix`-derived value does on
a JST machine) embeds `creation_time=1970-01-01T09:00:00+09:00`, which is
RFC3339 but not the UTC rendering `1970-01-01T00:00:00Z` of that instant. -/
theorem c7_counterexample :
    mergeFiles id "out".data ["/a/GH011234.MP4".data]
        { sec := 0, offset := 32400 } { sec := 0, offset := 0 } =
      .ok { manifestPaths := ["/a/GH011234.MP4".data],
            creationTimeArg := "creation_time=1970-01-01T09:00:00+09:00".data,
            outputPath := "out".data,
            chtimesArg := ({ sec := 0, offset := 32400 }, { sec := 0, offset := 0 }) } ∧
      "creation_time=1970-01-01T09:00:00+09:00".data ≠
        "creation_time=".data ++ rfc3339UTC 0 ∧
      "creation_time=".data ++ rfc3339UTC 0 =
        "creation_time=1970-01-01T00:00:00Z".data := by
  exact ⟨by decide, by decide, by decide⟩

/-- C8: a single valid input is a legal degenerate case handled by the
normal path: the plan is exactly that one file and the merge still produces
the concatenation-tool invocation (a one-entry manifest plus the full
directive set) rather than short-circuiting — the code has no special branch
for length one. -/
theorem c8_single_file_merge (abs : List Char → List Char) (out p : List Char)
    (fi : FileInfo) (ct mt : GoTime) (h : parseFileName p = .ok fi) :
    buildPlan abs [p] = .ok [{ fi with Path := abs p }] ∧
      mergeFiles abs out [p] ct mt =
        .ok { manifestPaths := [abs p],
              creationTimeArg := "creation_time=".data ++ rfc3339Format ct,
              outputPath := out,
              chtimesArg := (ct, mt) } := by
  have hcol : collectFiles abs [] [] [p] = .ok [{ fi with Path := abs p }] := by
    simp [collectFiles, h]
  have hplan : buildPlan abs [p] = .ok [{ fi with Path := abs p }] := by
    simp [buildPlan, hcol, sortFiles, insertFile]
  exact ⟨hplan, by simp [mergeFiles, hplan]⟩

/-- Witness for C8: merging the single file `GH011234.mp4` succeeds through
the normal path with a one-element plan and the concat invocation. -/
theorem c8_single_file_merge_witness :
    buildPlan id ["GH011234.mp4".data] =
        .ok [{ Path := "GH011234.mp4".data, FileNumber := 1234, ChapterNumber := 1 }] ∧
      mergeFiles id "out".data ["GH011234.mp4".data]
          { sec := 0, offset := 0 } { sec := 0, offset := 0 } =
        .ok { manifestPaths := ["GH011234.mp4".data],
              creationTimeArg := "creation_time=".data ++
                rfc3339Format { sec := 0, offset := 0 },
              outputPath := "out".data,
              chtimesArg := ({ sec := 0, offset := 0 }, { sec := 0, offset := 0 }) } :=
  c8_single_file_merge id "out".data "GH011234.mp4".data
    { Path := "GH011234.mp4".data, FileNumber := 1234, ChapterNumber := 1 }
    { sec := 0, offset := 0 } { sec := 0, offset := 0 } (by decide)

end GoProConcat
